import Mathlib

/-!
Verification of the geomageddon classification / color-resolution /
scale engine (`src/code/geomageddon.py`) against its specification.

The Python source is shallowly embedded: pure string/color helpers become
Lean functions on `String`/`List Char`, float arithmetic is modelled by
exact rational arithmetic (`ℚ`), Python `int(...)` truncation and
`round(...)` banker's rounding are modelled explicitly, and fallible code
(Python exceptions) returns `Option`/`Except`.  Text normalisation is
modelled for ASCII data, where Python's diacritic stripping is the
identity.
-/

/-! ## Color helpers (`_hex_to_rgb`, `_rgb_to_hex`, `mix_two`, `mix_many`,
`mix_weighted`, `jitter` from geomageddon.py) -/

/-- Value of one hexadecimal digit, as accepted by Python `int(h, 16)`
for a single character (digits, upper and lower case letters). -/
def hexDigitVal (c : Char) : Option ℕ :=
  if '0' ≤ c ∧ c ≤ '9' then some (c.toNat - 48)
  else if 'A' ≤ c ∧ c ≤ 'F' then some (c.toNat - 55)
  else if 'a' ≤ c ∧ c ≤ 'f' then some (c.toNat - 87)
  else none

/-- Python `int(h[i:i+2], 16)` on a slice of length ≤ 2: succeeds on one
or two hex digits, fails on the empty slice or non-hex characters. -/
def parseHexSlice : List Char → Option ℕ
  | [c] => hexDigitVal c
  | [c₁, c₂] =>
    match hexDigitVal c₁, hexDigitVal c₂ with
    | some a, some b => some (16 * a + b)
    | _, _ => none
  | _ => none

/-- Embedding of `_hex_to_rgb`: strip leading `#` characters, then parse
the three two-character slices `h[0:2]`, `h[2:4]`, `h[4:6]`.  A parse
failure models the Python `ValueError`. -/
def hex_to_rgb (s : String) : Option (ℕ × ℕ × ℕ) :=
  let h := s.data.dropWhile (· = '#')
  match parseHexSlice (h.take 2), parseHexSlice ((h.drop 2).take 2),
      parseHexSlice ((h.drop 4).take 2) with
  | some r, some g, some b => some (r, g, b)
  | _, _, _ => none

/-- Uppercase hexadecimal digit for a value below 16, as produced by
Python's format specifier `X`. -/
def toHexChar (n : ℕ) : Char :=
  if n < 10 then Char.ofNat (48 + n) else Char.ofNat (55 + n)

/-- Two-digit uppercase hexadecimal rendering of a byte (`"{:02X}"`). -/
def byteToHex (n : ℕ) : List Char :=
  [toHexChar (n / 16), toHexChar (n % 16)]

/-- Channel clamp `max(0, min(255, x))` from `_rgb_to_hex`. -/
def clampByte (x : ℤ) : ℕ := (max 0 (min 255 x)).toNat

/-- Embedding of `_rgb_to_hex`: clamp each channel to `[0, 255]` and
format as `"#RRGGBB"` with uppercase hex digits. -/
def rgb_to_hex (r g b : ℤ) : String :=
  ⟨'#' :: (byteToHex (clampByte r) ++ byteToHex (clampByte g) ++ byteToHex (clampByte b))⟩

/-- Python `int(x)` for a float modelled as a rational: truncation toward
zero. -/
def pyInt (q : ℚ) : ℤ := if 0 ≤ q then ⌊q⌋ else -⌊-q⌋

/-- Python `round(x)` (one-argument form): round to nearest integer with
ties going to the even integer. -/
def pyRound (q : ℚ) : ℤ :=
  if q - ⌊q⌋ < 1/2 then ⌊q⌋
  else if (1/2 : ℚ) < q - ⌊q⌋ then ⌊q⌋ + 1
  else if ⌊q⌋ % 2 = 0 then ⌊q⌋ else ⌊q⌋ + 1

/-- Embedding of `mix_two(c1, c2, a)`: per-channel linear interpolation in
RGB, with empty colors passed through unchanged. -/
def mix_two (c1 c2 : String) (a : ℚ) : Option String :=
  if c1 = "" ∧ c2 = "" then some ""
  else if c1 = "" then some c2
  else if c2 = "" then some c1
  else
    match hex_to_rgb c1, hex_to_rgb c2 with
    | some (r1, g1, b1), some (r2, g2, b2) =>
      some (rgb_to_hex (pyInt ((1 - a) * r1 + a * r2))
        (pyInt ((1 - a) * g1 + a * g2)) (pyInt ((1 - a) * b1 + a * b2)))
    | _, _ => none

/-- Parse a list of colors, failing if any fails (the Python comprehension
raises on the first bad color). -/
def parseColors : List String → Option (List (ℕ × ℕ × ℕ))
  | [] => some []
  | c :: cs =>
    match hex_to_rgb c, parseColors cs with
    | some rgb, some l => some (rgb :: l)
    | _, _ => none

/-- Embedding of `mix_many(colors)`: unweighted per-channel RGB mean over
the nonempty colors, truncated with `int(...)`. -/
def mix_many (colors : List String) : Option String :=
  let cols := colors.filter fun c => decide (c ≠ "")
  if cols = [] then some ""
  else
    match parseColors cols with
    | none => none
    | some rgbs =>
      let n : ℚ := cols.length
      some (rgb_to_hex (pyInt ((rgbs.map fun p => (p.1 : ℚ)).sum / n))
        (pyInt ((rgbs.map fun p => (p.2.1 : ℚ)).sum / n))
        (pyInt ((rgbs.map fun p => (p.2.2 : ℚ)).sum / n)))

/-- Parse the color of each (color, weight) pair kept by `mix_weighted`. -/
def parsePairs : List (String × ℚ) → Option (List ((ℕ × ℕ × ℕ) × ℚ))
  | [] => some []
  | (c, w) :: rest =>
    match hex_to_rgb c, parsePairs rest with
    | some rgb, some l => some ((rgb, w) :: l)
    | _, _ => none

/-- Core of `mix_weighted` once the (color, weight) pairs with nonempty
color and positive weight have been selected: per-channel weighted mean,
rounded with `int(round(...))`. -/
def mixPairs (pairs : List (String × ℚ)) : Option String :=
  if pairs = [] then some ""
  else
    let sw := (pairs.map Prod.snd).sum
    if sw ≤ 0 then some ""
    else
      match parsePairs pairs with
      | none => none
      | some prs =>
        some (rgb_to_hex
          (pyRound ((prs.map fun p => (p.1.1 : ℚ) * p.2).sum / sw))
          (pyRound ((prs.map fun p => (p.1.2.1 : ℚ) * p.2).sum / sw))
          (pyRound ((prs.map fun p => (p.1.2.2 : ℚ) * p.2).sum / sw)))

/-- Embedding of `mix_weighted(colors, weights)`: keep the pairs with a
nonempty color and a strictly positive weight, then take the per-channel
area-weighted mean. -/
def mix_weighted (colors : List String) (weights : List ℚ) : Option String :=
  mixPairs ((colors.zip weights).filter fun p => decide (p.1 ≠ "") && decide (0 < p.2))

/-! ## Basic lemmas about the hex formatting/parsing pair -/

theorem clampByte_le (x : ℤ) : clampByte x ≤ 255 := by
  unfold clampByte
  omega

theorem clampByte_of_le {x : ℤ} (h0 : 0 ≤ x) (h255 : x ≤ 255) :
    (clampByte x : ℤ) = x := by
  unfold clampByte
  omega

theorem hexDigitVal_toHexChar {n : ℕ} (h : n < 16) :
    hexDigitVal (toHexChar n) = some n := by
  interval_cases n <;> decide

theorem parseHexSlice_pair {n : ℕ} (h : n ≤ 255) :
    parseHexSlice [toHexChar (n / 16), toHexChar (n % 16)] = some n := by
  have h1 : n / 16 < 16 := by omega
  have h2 : n % 16 < 16 := Nat.mod_lt _ (by norm_num)
  simp only [parseHexSlice, hexDigitVal_toHexChar h1, hexDigitVal_toHexChar h2]
  congr 1
  omega

theorem toHexChar_ne_hash {n : ℕ} (h : n < 16) : toHexChar n ≠ '#' := by
  interval_cases n <;> decide

theorem hex_to_rgb_rgb_to_hex (r g b : ℤ) :
    hex_to_rgb (rgb_to_hex r g b) = some (clampByte r, clampByte g, clampByte b) := by
  have key : ∀ x y z : ℕ, x ≤ 255 → y ≤ 255 → z ≤ 255 →
      hex_to_rgb ⟨'#' :: (byteToHex x ++ byteToHex y ++ byteToHex z)⟩ = some (x, y, z) := by
    intro x y z hx hy hz
    unfold hex_to_rgb byteToHex
    simp only [List.cons_append, List.nil_append]
    rw [List.dropWhile_cons_of_pos (by decide),
      List.dropWhile_cons_of_neg (by simp [toHexChar_ne_hash (show x / 16 < 16 by omega)])]
    show (match parseHexSlice [toHexChar (x / 16), toHexChar (x % 16)],
        parseHexSlice [toHexChar (y / 16), toHexChar (y % 16)],
        parseHexSlice [toHexChar (z / 16), toHexChar (z % 16)] with
      | some r, some g, some b => some (r, g, b)
      | _, _, _ => none) = some (x, y, z)
    rw [parseHexSlice_pair hx, parseHexSlice_pair hy, parseHexSlice_pair hz]
  exact key _ _ _ (clampByte_le r) (clampByte_le g) (clampByte_le b)

/-! ## The `jitter` helper (colorsys HLS round-trip, modelled in exact
rational arithmetic) -/

/-- Python float `x % 1.0`: the fractional part, in `[0, 1)`. -/
def pyMod1 (q : ℚ) : ℚ := q - ⌊q⌋

/-- Embedding of `colorsys.rgb_to_hls` (unit-interval channels). -/
def rgb_to_hls (r g b : ℚ) : ℚ × ℚ × ℚ :=
  let maxc := max r (max g b)
  let minc := min r (min g b)
  let sumc := maxc + minc
  let rangec := maxc - minc
  let l := sumc / 2
  if minc = maxc then (0, l, 0)
  else
    let s := if l ≤ 1/2 then rangec / sumc else rangec / (2 - maxc - minc)
    let rc := (maxc - r) / rangec
    let gc := (maxc - g) / rangec
    let bc := (maxc - b) / rangec
    let h := if r = maxc then bc - gc else if g = maxc then 2 + rc - bc else 4 + gc - rc
    (pyMod1 (h / 6), l, s)

/-- Embedding of `colorsys._v`. -/
def hlsV (m1 m2 hue : ℚ) : ℚ :=
  let hue := pyMod1 hue
  if hue < 1/6 then m1 + (m2 - m1) * hue * 6
  else if hue < 1/2 then m2
  else if hue < 2/3 then m1 + (m2 - m1) * (2/3 - hue) * 6
  else m1

/-- Embedding of `colorsys.hls_to_rgb`. -/
def hls_to_rgb (h l s : ℚ) : ℚ × ℚ × ℚ :=
  if s = 0 then (l, l, l)
  else
    let m2 := if l ≤ 1/2 then l * (1 + s) else l + s - l * s
    let m1 := 2 * l - m2
    (hlsV m1 m2 (h + 1/3), hlsV m1 m2 h, hlsV m1 m2 (h - 1/3))

/-- Embedding of `jitter(hex_color, k, dh, dl)`: reproducible small
hue/lightness perturbation keyed by the index `k`, using the golden-ratio
constant `0.61803398875`. -/
def jitter (hex_color : String) (k : ℕ) (dh dl : ℚ) : Option String :=
  if hex_color = "" then some ""
  else
    match hex_to_rgb hex_color with
    | none => none
    | some (r, g, b) =>
      let hls := rgb_to_hls ((r : ℚ) / 255) ((g : ℚ) / 255) ((b : ℚ) / 255)
      let phi : ℚ := 61803398875 / 100000000000
      let h := pyMod1 (hls.1 + (k + 1) * phi * dh)
      let l := max 0 (min 1 (hls.2.1 + (if k % 2 = 0 then dl else -dl)))
      let rgb := hls_to_rgb h l hls.2.2
      some (rgb_to_hex (pyInt (rgb.1 * 255)) (pyInt (rgb.2.1 * 255)) (pyInt (rgb.2.2 * 255)))

/-! ## Canonical color strings -/

/-- Uppercase hexadecimal digit test. -/
def isUpperHexDigit (c : Char) : Bool := ('0' ≤ c && c ≤ '9') || ('A' ≤ c && c ≤ 'F')

/-- A canonical seven-character `"#RRGGBB"` color string: the exact shape
produced by `_rgb_to_hex`, with all three channels in `[0, 255]`. -/
def CanonicalRGB (s : String) : Prop :=
  s.length = 7 ∧ s.data.head? = some '#' ∧
    (∀ c ∈ s.data.tail, isUpperHexDigit c = true) ∧
    ∃ r g b : ℕ, r ≤ 255 ∧ g ≤ 255 ∧ b ≤ 255 ∧ s = rgb_to_hex r g b

/-- A color value as used throughout the styler: either missing (the empty
string) or canonical `"#RRGGBB"`. -/
def CanonOrEmpty (s : String) : Prop := s = "" ∨ CanonicalRGB s

theorem isUpperHexDigit_toHexChar {n : ℕ} (h : n < 16) :
    isUpperHexDigit (toHexChar n) = true := by
  interval_cases n <;> decide

theorem clampByte_natCast {n : ℕ} (h : n ≤ 255) : clampByte (n : ℤ) = n := by
  unfold clampByte
  omega

theorem canonicalRGB_rgb_to_hex (r g b : ℤ) : CanonicalRGB (rgb_to_hex r g b) := by
  have hr := clampByte_le r
  have hg := clampByte_le g
  have hb := clampByte_le b
  have key : ∀ x y z : ℕ, x ≤ 255 → y ≤ 255 → z ≤ 255 →
      CanonicalRGB (rgb_to_hex (x : ℤ) (y : ℤ) (z : ℤ)) := by
    intro x y z hx hy hz
    have hdata : (rgb_to_hex (x : ℤ) (y : ℤ) (z : ℤ)).data =
        '#' :: [toHexChar (x / 16), toHexChar (x % 16), toHexChar (y / 16),
          toHexChar (y % 16), toHexChar (z / 16), toHexChar (z % 16)] := by
      simp [rgb_to_hex, byteToHex, clampByte_natCast, hx, hy, hz]
    refine ⟨?_, ?_, ?_, x, y, z, hx, hy, hz, rfl⟩
    · show (rgb_to_hex _ _ _).data.length = 7
      rw [hdata]; rfl
    · rw [hdata]; rfl
    · rw [hdata]
      intro c hc
      have hx1 : x / 16 < 16 := by omega
      have hy1 : y / 16 < 16 := by omega
      have hz1 : z / 16 < 16 := by omega
      have hx2 : x % 16 < 16 := Nat.mod_lt _ (by norm_num)
      have hy2 : y % 16 < 16 := Nat.mod_lt _ (by norm_num)
      have hz2 : z % 16 < 16 := Nat.mod_lt _ (by norm_num)
      simp only [List.tail_cons, List.mem_cons, List.not_mem_nil, or_false] at hc
      rcases hc with rfl | rfl | rfl | rfl | rfl | rfl <;>
        solve_by_elim [isUpperHexDigit_toHexChar]
  have hrw : rgb_to_hex r g b =
      rgb_to_hex ((clampByte r : ℕ) : ℤ) ((clampByte g : ℕ) : ℤ) ((clampByte b : ℤ)) := by
    unfold rgb_to_hex
    rw [clampByte_natCast hr, clampByte_natCast hg, clampByte_natCast hb]
  rw [hrw]
  exact key _ _ _ hr hg hb

theorem mix_two_canonOrEmpty (c1 c2 : String) (a : ℚ) (s : String)
    (h1 : CanonOrEmpty c1) (h2 : CanonOrEmpty c2)
    (h : mix_two c1 c2 a = some s) : CanonOrEmpty s := by
  unfold mix_two at h
  split_ifs at h with hb he1 he2
  · simp only [Option.some.injEq] at h
    exact Or.inl h.symm
  · simp only [Option.some.injEq] at h
    exact h ▸ h2
  · simp only [Option.some.injEq] at h
    exact h ▸ h1
  · rcases hc1 : hex_to_rgb c1 with _ | ⟨⟨r1, g1, b1⟩⟩ <;>
      rcases hc2 : hex_to_rgb c2 with _ | ⟨⟨r2, g2, b2⟩⟩ <;>
      rw [hc1, hc2] at h <;> dsimp only at h <;>
      simp only [Option.some.injEq, reduceCtorEq] at h
    exact Or.inr (h ▸ canonicalRGB_rgb_to_hex _ _ _)

theorem mix_many_canonOrEmpty (colors : List String) (s : String)
    (h : mix_many colors = some s) : CanonOrEmpty s := by
  simp only [mix_many] at h
  split_ifs at h with hnil
  · simp only [Option.some.injEq] at h
    exact Or.inl h.symm
  · rcases hp : parseColors (colors.filter fun c => decide (c ≠ "")) with _ | rgbs <;>
      rw [hp] at h <;> dsimp only at h <;>
      simp only [Option.some.injEq, reduceCtorEq] at h
    exact Or.inr (h ▸ canonicalRGB_rgb_to_hex _ _ _)

theorem mixPairs_canonOrEmpty (pairs : List (String × ℚ)) (s : String)
    (h : mixPairs pairs = some s) : CanonOrEmpty s := by
  simp only [mixPairs] at h
  split_ifs at h with hnil hsw
  · simp only [Option.some.injEq] at h
    exact Or.inl h.symm
  · simp only [Option.some.injEq] at h
    exact Or.inl h.symm
  · rcases hp : parsePairs pairs with _ | prs <;>
      rw [hp] at h <;> dsimp only at h <;>
      simp only [Option.some.injEq, reduceCtorEq] at h
    exact Or.inr (h ▸ canonicalRGB_rgb_to_hex _ _ _)

theorem jitter_canonOrEmpty (c : String) (k : ℕ) (dh dl : ℚ) (s : String)
    (h : jitter c k dh dl = some s) : CanonOrEmpty s := by
  simp only [jitter] at h
  by_cases hempty : c = ""
  · rw [if_pos hempty] at h
    simp only [Option.some.injEq] at h
    exact Or.inl h.symm
  · rw [if_neg hempty] at h
    rcases hc : hex_to_rgb c with _ | ⟨⟨r, g, b⟩⟩ <;>
      rw [hc] at h <;> dsimp only at h <;>
      simp only [Option.some.injEq, reduceCtorEq] at h
    exact Or.inr (h ▸ canonicalRGB_rgb_to_hex _ _ _)

/-- C10: every color string produced by the blending helpers — two-color
blend (`mix_two`), unweighted mean (`mix_many`), area-weighted mix
(`mix_weighted`) and `jitter` — is either the empty string or a canonical
seven-character uppercase `"#RRGGBB"` hex string whose three channels are
clamped to `[0, 255]`.  For `mix_two` this holds when the two arguments
are themselves colors (empty or canonical), since empty arguments are
passed through. -/
theorem color_helpers_canonical :
    (∀ c1 c2 : String, ∀ a : ℚ, ∀ s : String, CanonOrEmpty c1 → CanonOrEmpty c2 →
      mix_two c1 c2 a = some s → CanonOrEmpty s) ∧
    (∀ colors : List String, ∀ s : String,
      mix_many colors = some s → CanonOrEmpty s) ∧
    (∀ colors : List String, ∀ weights : List ℚ, ∀ s : String,
      mix_weighted colors weights = some s → CanonOrEmpty s) ∧
    (∀ c : String, ∀ k : ℕ, ∀ dh dl : ℚ, ∀ s : String,
      jitter c k dh dl = some s → CanonOrEmpty s) :=
  ⟨mix_two_canonOrEmpty,
   mix_many_canonOrEmpty,
   fun colors weights s h => mixPairs_canonOrEmpty _ s h,
   jitter_canonOrEmpty⟩

/-- Witness for C10 at concrete inputs: blending the missing color with
`"#AABBCC"` yields `"#AABBCC"`, which is canonical. -/
theorem color_helpers_canonical_witness :
    mix_two "" "#AABBCC" 0 = some "#AABBCC" ∧ CanonOrEmpty "#AABBCC" := by
  have hcanon : CanonOrEmpty "" := Or.inl rfl
  have hAB : rgb_to_hex 170 187 204 = "#AABBCC" := by decide
  have hcanon2 : CanonOrEmpty "#AABBCC" := Or.inr (hAB ▸ canonicalRGB_rgb_to_hex 170 187 204)
  exact ⟨rfl, color_helpers_canonical.1 "" "#AABBCC" 0 "#AABBCC" hcanon hcanon2 rfl⟩

/-! ## C6: identities of the two-color blend -/

theorem canonical_ne_empty {s : String} (h : CanonicalRGB s) : s ≠ "" := by
  obtain ⟨-, -, -, r, g, b, -, -, -, rfl⟩ := h
  intro hcon
  have := congrArg String.data hcon
  simp [rgb_to_hex] at this

theorem pyInt_natCast (n : ℕ) : pyInt (n : ℚ) = n := by
  unfold pyInt
  rw [if_pos (by positivity)]
  exact Int.floor_natCast n

theorem hex_to_rgb_canonical {s : String} {r g b : ℕ}
    (hr : r ≤ 255) (hg : g ≤ 255) (hb : b ≤ 255)
    (hs : s = rgb_to_hex r g b) : hex_to_rgb s = some (r, g, b) := by
  subst hs
  rw [hex_to_rgb_rgb_to_hex]
  rw [clampByte_natCast hr, clampByte_natCast hg, clampByte_natCast hb]

/-- The C6 claim exactly as stated: over all color arguments (empty or
canonical), blending at weight 0 returns the first color unchanged, at
weight 1 the second, one empty color passes the other through at any
weight, and two empty colors give empty. -/
def MixTwoIdentityClaim : Prop :=
  ∀ c1 c2 : String, ∀ a : ℚ, CanonOrEmpty c1 → CanonOrEmpty c2 →
    mix_two c1 c2 0 = some c1 ∧ mix_two c1 c2 1 = some c2 ∧
    (c1 = "" → c2 ≠ "" → mix_two c1 c2 a = some c2) ∧
    (c1 ≠ "" → c2 = "" → mix_two c1 c2 a = some c1) ∧
    (c1 = "" → c2 = "" → mix_two c1 c2 a = some "")

/-- C6 counterexample: at weight 0 with an empty first color, `mix_two`
returns the second color, not the (empty) first one, so the claim as
stated fails at `c1 = ""`, `c2 = "#AABBCC"`. -/
theorem mix_two_identity_claim_false : ¬ MixTwoIdentityClaim := by
  intro hclaim
  have hAB : rgb_to_hex 170 187 204 = "#AABBCC" := by decide
  have hc2 : CanonOrEmpty "#AABBCC" := Or.inr (hAB ▸ canonicalRGB_rgb_to_hex 170 187 204)
  have h := (hclaim "" "#AABBCC" 0 (Or.inl rfl) hc2).1
  exact absurd h (by decide)

theorem mix_two_weights_canonical {r1 g1 b1 r2 g2 b2 : ℕ}
    (hr1 : r1 ≤ 255) (hg1 : g1 ≤ 255) (hb1 : b1 ≤ 255)
    (hr2 : r2 ≤ 255) (hg2 : g2 ≤ 255) (hb2 : b2 ≤ 255) :
    mix_two (rgb_to_hex r1 g1 b1) (rgb_to_hex r2 g2 b2) 0 = some (rgb_to_hex r1 g1 b1) ∧
    mix_two (rgb_to_hex r1 g1 b1) (rgb_to_hex r2 g2 b2) 1 = some (rgb_to_hex r2 g2 b2) := by
  have hne1 : rgb_to_hex (r1 : ℤ) g1 b1 ≠ "" := canonical_ne_empty (canonicalRGB_rgb_to_hex _ _ _)
  have hne2 : rgb_to_hex (r2 : ℤ) g2 b2 ≠ "" := canonical_ne_empty (canonicalRGB_rgb_to_hex _ _ _)
  constructor <;>
    (unfold mix_two
     rw [if_neg (by tauto), if_neg hne1, if_neg hne2,
       hex_to_rgb_canonical hr1 hg1 hb1 rfl, hex_to_rgb_canonical hr2 hg2 hb2 rfl]
     dsimp only)
  · rw [show (1 - (0:ℚ)) * r1 + 0 * r2 = (r1 : ℚ) by ring,
      show (1 - (0:ℚ)) * g1 + 0 * g2 = (g1 : ℚ) by ring,
      show (1 - (0:ℚ)) * b1 + 0 * b2 = (b1 : ℚ) by ring,
      pyInt_natCast, pyInt_natCast, pyInt_natCast]
  · rw [show (1 - (1:ℚ)) * r1 + 1 * r2 = (r2 : ℚ) by ring,
      show (1 - (1:ℚ)) * g1 + 1 * g2 = (g2 : ℚ) by ring,
      show (1 - (1:ℚ)) * b1 + 1 * b2 = (b2 : ℚ) by ring,
      pyInt_natCast, pyInt_natCast, pyInt_natCast]

/-- C6 amended: the weight-0 (resp. weight-1) clause holds whenever the
first (resp. second) color is nonempty; the empty-color pass-through
clauses and the empty-empty clause hold at every weight. -/
theorem mix_two_identities (c1 c2 : String) (a : ℚ)
    (h1 : CanonOrEmpty c1) (h2 : CanonOrEmpty c2) :
    (c1 ≠ "" → mix_two c1 c2 0 = some c1) ∧
    (c2 ≠ "" → mix_two c1 c2 1 = some c2) ∧
    (c1 = "" → c2 ≠ "" → mix_two c1 c2 a = some c2) ∧
    (c1 ≠ "" → c2 = "" → mix_two c1 c2 a = some c1) ∧
    (c1 = "" → c2 = "" → mix_two c1 c2 a = some "") := by
  refine ⟨?_, ?_, ?_, ?_, ?_⟩
  · intro hne1
    rcases h2 with rfl | hcan2
    · unfold mix_two
      rw [if_neg (by tauto), if_neg hne1, if_pos rfl]
    · rcases h1 with rfl | hcan1
      · exact absurd rfl hne1
      obtain ⟨-, -, -, r1, g1, b1, hr1, hg1, hb1, rfl⟩ := hcan1
      obtain ⟨-, -, -, r2, g2, b2, hr2, hg2, hb2, rfl⟩ := hcan2
      exact (mix_two_weights_canonical hr1 hg1 hb1 hr2 hg2 hb2).1
  · intro hne2
    rcases h1 with rfl | hcan1
    · unfold mix_two
      rw [if_neg (by tauto), if_pos rfl]
    · rcases h2 with rfl | hcan2
      · exact absurd rfl hne2
      obtain ⟨-, -, -, r1, g1, b1, hr1, hg1, hb1, rfl⟩ := hcan1
      obtain ⟨-, -, -, r2, g2, b2, hr2, hg2, hb2, rfl⟩ := hcan2
      exact (mix_two_weights_canonical hr1 hg1 hb1 hr2 hg2 hb2).2
  · intro he1 hne2
    unfold mix_two
    rw [if_neg (by tauto), if_pos he1]
  · intro hne1 he2
    unfold mix_two
    rw [if_neg (by tauto), if_neg hne1, if_pos he2]
  · intro he1 he2
    unfold mix_two
    rw [if_pos ⟨he1, he2⟩]

/-- Witness for the amended C6 at concrete canonical colors. -/
theorem mix_two_identities_witness :
    ("#010203" : String) ≠ "" ∧ mix_two "#010203" "#AABBCC" 0 = some "#010203" := by
  have h1 : rgb_to_hex 1 2 3 = "#010203" := by decide
  have h2 : rgb_to_hex 170 187 204 = "#AABBCC" := by decide
  have hc1 : CanonOrEmpty "#010203" := Or.inr (h1 ▸ canonicalRGB_rgb_to_hex 1 2 3)
  have hc2 : CanonOrEmpty "#AABBCC" := Or.inr (h2 ▸ canonicalRGB_rgb_to_hex 170 187 204)
  exact ⟨by decide, (mix_two_identities "#010203" "#AABBCC" 0 hc1 hc2).1 (by decide)⟩

/-! ## C7: weight-scale invariance of the weighted mix -/

theorem parsePairs_map_scale (t : ℚ) (l : List (String × ℚ)) :
    parsePairs (l.map fun p => (p.1, t * p.2)) =
      (parsePairs l).map (List.map fun q => (q.1, t * q.2)) := by
  induction l with
  | nil => rfl
  | cons p rest ih =>
    obtain ⟨c, w⟩ := p
    dsimp only [List.map_cons, parsePairs]
    rw [ih]
    rcases hex_to_rgb c with _ | rgb <;> rcases hp : parsePairs rest with _ | l' <;> simp

theorem sum_map_mul_const {α : Type} (t : ℚ) (f : α → ℚ) (l : List α) :
    (l.map fun x => t * f x).sum = t * (l.map f).sum := by
  induction l with
  | nil => simp
  | cons x xs ih => simp [ih, mul_add]

theorem channel_sum_scale (t : ℚ) (g : (ℕ × ℕ × ℕ) → ℚ) (prs : List ((ℕ × ℕ × ℕ) × ℚ)) :
    ((prs.map fun q => (q.1, t * q.2)).map fun p => g p.1 * p.2).sum
      = t * (prs.map fun p => g p.1 * p.2).sum := by
  rw [List.map_map]
  have h : ((fun p : (ℕ × ℕ × ℕ) × ℚ => g p.1 * p.2) ∘ fun q => (q.1, t * q.2))
      = fun q : (ℕ × ℕ × ℕ) × ℚ => t * (g q.1 * q.2) := by
    funext q
    dsimp
    ring
  rw [h]
  exact sum_map_mul_const t _ prs

theorem mixPairs_scale (t : ℚ) (ht : 0 < t) (pairs : List (String × ℚ)) :
    mixPairs (pairs.map fun p => (p.1, t * p.2)) = mixPairs pairs := by
  simp only [mixPairs, List.map_eq_nil_iff]
  by_cases hnil : pairs = []
  · simp [hnil]
  · rw [if_neg hnil, if_neg hnil]
    have hsw : ((pairs.map fun p => (p.1, t * p.2)).map Prod.snd).sum =
        t * (pairs.map Prod.snd).sum := by
      rw [List.map_map]
      exact sum_map_mul_const t Prod.snd pairs
    have hswiff : (t * (pairs.map Prod.snd).sum ≤ 0) ↔ ((pairs.map Prod.snd).sum ≤ 0) := by
      constructor <;> intro h <;> nlinarith
    rw [hsw]
    by_cases hle : (pairs.map Prod.snd).sum ≤ 0
    · rw [if_pos (hswiff.mpr hle), if_pos hle]
    · rw [if_neg (fun hcon => hle (hswiff.mp hcon)), if_neg hle]
      rw [parsePairs_map_scale]
      rcases hp : parsePairs pairs with _ | prs
      · rfl
      · simp only [Option.map_some']
        have e1 := channel_sum_scale t (fun v => (v.1 : ℚ)) prs
        have e2 := channel_sum_scale t (fun v => (v.2.1 : ℚ)) prs
        have e3 := channel_sum_scale t (fun v => (v.2.2 : ℚ)) prs
        rw [e1, e2, e3, mul_div_mul_left _ _ (ne_of_gt ht),
          mul_div_mul_left _ _ (ne_of_gt ht), mul_div_mul_left _ _ (ne_of_gt ht)]

/-- C7: the weighted multi-color mix is invariant under uniformly scaling
all weights by the same positive constant. -/
theorem mix_weighted_scale_invariant (colors : List String) (weights : List ℚ)
    (t : ℚ) (ht : 0 < t) :
    mix_weighted colors (weights.map fun w => t * w) = mix_weighted colors weights := by
  unfold mix_weighted
  rw [List.zip_map_right, List.filter_map]
  have hpred : ∀ q ∈ colors.zip weights,
      (((fun p : String × ℚ => decide (p.1 ≠ "") && decide (0 < p.2)) ∘
        Prod.map id fun w => t * w) q) =
      ((fun p : String × ℚ => decide (p.1 ≠ "") && decide (0 < p.2)) q) := by
    intro q _
    obtain ⟨c, w⟩ := q
    simp only [Function.comp, Prod.map]
    have : (0 < t * w) ↔ (0 < w) := by
      constructor <;> intro h <;> nlinarith
    simp [this]
  rw [List.filter_congr hpred]
  have hmap : (Prod.map id fun w => t * w) = fun p : String × ℚ => (p.1, t * p.2) := by
    funext p
    rfl
  rw [hmap, mixPairs_scale t ht]

/-- Witness for C7 at a concrete input: doubling the single weight leaves
the mix unchanged. -/
theorem mix_weighted_scale_invariant_witness :
    (0 : ℚ) < 2 ∧
      mix_weighted ["#AABBCC"] ([(1 : ℚ)].map fun w => 2 * w) =
        mix_weighted ["#AABBCC"] [(1 : ℚ)] :=
  ⟨by norm_num, mix_weighted_scale_invariant ["#AABBCC"] [(1 : ℚ)] 2 (by norm_num)⟩

/-! ## C8: consolidation ground-area threshold
(`cull_small_parts_by_scale`, line `area_thresh_m2 = (N * 1e-3) ** 2 * float(min_area_mm2)`) -/

/-- Embedding of the threshold computation in `cull_small_parts_by_scale`:
`area_thresh_m2 = (N * 1e-3) ** 2 * float(min_area_mm2)`, where `N` is the
scale denominator and `min_area_mm2` the minimum visible area on paper. -/
def cull_area_threshold (N min_area_mm2 : ℚ) : ℚ :=
  (N * (1 / 1000)) ^ 2 * min_area_mm2

/-- Stated from the spec words: ground-area threshold
`(scale_denominator × unit_to_meters)² × min_area`. -/
def groundAreaThresholdSpec (scale_denominator unit_to_meters min_area : ℚ) : ℚ :=
  (scale_denominator * unit_to_meters) ^ 2 * min_area

/-- C8: the consolidation threshold is `(scale_denominator × unit_to_meters)² × min_area`
with `unit_to_meters = 10⁻³` for millimetres of paper, i.e.
`(N × 10⁻³)² × min_area_mm2` square metres. -/
theorem cull_threshold_formula (N m : ℚ) :
    cull_area_threshold N m = groundAreaThresholdSpec N (1 / 1000) m ∧
    cull_area_threshold N m = (N * ((10 : ℚ) ^ (3 : ℕ))⁻¹) ^ 2 * m := by
  constructor
  · rfl
  · unfold cull_area_threshold
    norm_num

/-! ## CodeParser: `_extract_idade_code`, `_tokenize_rest`, `_norm_greek`,
`_letters_stem`, `_parse_sigla` (ASCII model of the Python string ops) -/

/-- Character class of the leading age-token run: `[A-Z0-9_]`. -/
def isIdadeChar (c : Char) : Bool :=
  ('A' ≤ c && c ≤ 'Z') || ('0' ≤ c && c ≤ '9') || c = '_'

/-- Uppercase ASCII letter test. -/
def isUpperAlpha (c : Char) : Bool := 'A' ≤ c && c ≤ 'Z'

/-- Lowercase ASCII letter test. -/
def isLowerAlpha (c : Char) : Bool := 'a' ≤ c && c ≤ 'z'

/-- ASCII digit test. -/
def isDigitChar (c : Char) : Bool := '0' ≤ c && c ≤ '9'

/-- ASCII letter test. -/
def isAsciiLetter (c : Char) : Bool := isUpperAlpha c || isLowerAlpha c

/-- ASCII model of Python `str.lower` on one character. -/
def toLowerChar (c : Char) : Char :=
  if 'A' ≤ c ∧ c ≤ 'Z' then Char.ofNat (c.toNat + 32) else c

/-- ASCII model of Python `str.upper` on one character. -/
def toUpperChar (c : Char) : Char :=
  if 'a' ≤ c ∧ c ≤ 'z' then Char.ofNat (c.toNat - 32) else c

/-- Test for `base.endswith("C_")`. -/
def endsCU (l : List Char) : Bool :=
  match l.reverse with
  | '_' :: 'C' :: _ => true
  | _ => false

/-- Test for `rest.lower().startswith("cortado_")`. -/
def startsCortado (l : List Char) : Bool :=
  match l.map toLowerChar with
  | 'c' :: 'o' :: 'r' :: 't' :: 'a' :: 'd' :: 'o' :: '_' :: _ => true
  | _ => false

/-- Embedding of `_extract_idade_code`: take the longest leading
`[A-Z0-9_]` run; if it ends in `"C_"` and the remaining suffix starts
(case-insensitively) with `"cortado_"`, absorb the marker as
`"CORTADO_"`. -/
def extract_idade_code (s : String) : String :=
  let base := s.data.takeWhile isIdadeChar
  let rest := s.data.drop base.length
  if endsCU base && startsCortado rest then ⟨base ++ "CORTADO_".data⟩ else ⟨base⟩

/-- Splitter for `re.split(r"_+", rest)` keeping only nonempty tokens. -/
def splitUnderscoreAux : List Char → List Char → List (List Char)
  | [], acc => if acc = [] then [] else [acc.reverse]
  | c :: cs, acc =>
    if c = '_' then
      if acc = [] then splitUnderscoreAux cs [] else acc.reverse :: splitUnderscoreAux cs []
    else splitUnderscoreAux cs (c :: acc)

/-- Embedding of `_tokenize_rest`: the part of the code after the age
token, left-stripped of underscores and split on underscore runs. -/
def tokenize_rest (s : String) (idade : String) : List (List Char) :=
  splitUnderscoreAux ((s.data.drop idade.data.length).dropWhile (· = '_')) []

/-- Embedding of `_norm_greek`: strip non-letters, uppercase, and look up
the Greek-letter name table. -/
def norm_greek (tok : List Char) : Option String :=
  let t : List Char := (tok.filter isAsciiLetter).map toUpperChar
  if t = "ALFA".data ∨ t = "ALPHA".data then some "alfa"
  else if t = "BETA".data then some "beta"
  else if t = "GAMMA".data ∨ t = "GAMA".data then some "gamma"
  else if t = "DELTA".data then some "delta"
  else if t = "LAMBDA".data then some "lambda"
  else if t = "MU".data then some "mu"
  else none

/-- Embedding of `_letters_stem`: strip underscores, drop leading digits,
and keep the leading lowercase run truncated to `stem_len` (none when the
run is empty). -/
def letters_stem (stem_len : ℕ) (tok : List Char) : Option String :=
  let t1 := ((tok.dropWhile (· = '_')).reverse.dropWhile (· = '_')).reverse
  let t2 := t1.dropWhile isDigitChar
  let m := t2.takeWhile isLowerAlpha
  if m = [] then none else some ⟨m.take stem_len⟩

/-- Test for `re.fullmatch(r"[A-Z0-9]+", t)`. -/
def isAllCapsNum (l : List Char) : Bool :=
  !(l.isEmpty) && l.all fun c => ('A' ≤ c && c ≤ 'Z') || ('0' ≤ c && c ≤ '9')

/-- The token scan of `_parse_sigla`: skip ignored all-caps tokens, take
the first Greek token, else contribute the first letters-stem, stopping
once both are found.  The stem is only adopted when nonempty (Python's
`if st:` truthiness test). -/
def siglaLoop (stem_len : ℕ) (ignore : List String) :
    List (List Char) → Option String → Option String → Option String × Option String
  | [], g, st => (g, st)
  | t :: ts, g, st =>
    if isAllCapsNum t && decide ((⟨t⟩ : String) ∈ ignore) then
      siglaLoop stem_len ignore ts g st
    else
      match g, norm_greek t with
      | none, some gg => siglaLoop stem_len ignore ts (some gg) st
      | _, _ =>
        let st' := if st = none then
            match letters_stem stem_len t with
            | some x => if x = "" then st else some x
            | none => st
          else st
        if g.isSome && st'.isSome then (g, st')
        else siglaLoop stem_len ignore ts g st'

/-- Embedding of `_parse_sigla`: returns
`(idade_code, greek, stem, coarse_grp)`. -/
def parse_sigla (stem_len : ℕ) (ignore : List String) (s : String) :
    String × String × String × String :=
  let idade := extract_idade_code s
  let toks := tokenize_rest s idade
  let gs := siglaLoop stem_len ignore toks none none
  let coarse :=
    match gs.1, gs.2 with
    | some gg, _ => idade ++ "|" ++ gg
    | none, some stm => idade ++ "|" ++ stm
    | none, none => idade
  (idade, (gs.1.getD ""), (gs.2.getD ""), coarse)

/-- Default `ignore_allcaps` set of the styler constructor. -/
def defaultIgnoreAllcaps : List String := ["C", "D", "E", "A", "B"]

/-! ## C3: the cortado (Cambrian-interface) absorption rule -/

/-- Test for the claim's hypothesis: the leading run ends in a single
trailing letter followed by `'_'` (the letter's predecessor, when present,
is not a letter). -/
def endsSingleLetterU (l : List Char) : Bool :=
  match l.reverse with
  | '_' :: c :: rest =>
    isUpperAlpha c &&
      !(match rest with
        | d :: _ => isUpperAlpha d
        | [] => false)
  | _ => false

/-- The C3 claim exactly as stated: whenever the leading `[A-Z0-9_]` run
ends in a single trailing letter followed by `"_"` and the remaining
suffix starts case-insensitively with `"cortado_"`, the parser extends the
age token with the uppercased marker. -/
def CortadoClaim : Prop :=
  ∀ s : String,
    endsSingleLetterU (s.data.takeWhile isIdadeChar) = true →
    startsCortado (s.data.drop (s.data.takeWhile isIdadeChar).length) = true →
    extract_idade_code s = ⟨(s.data.takeWhile isIdadeChar) ++ "CORTADO_".data⟩

/-- C3 counterexample: `"B_cortado_1"` satisfies the claim's hypothesis
(single trailing letter `B` before `"_"`, suffix starts with
`"cortado_"`), but the code only absorbs the marker after the specific
letter `C`, so the age token stays `"B_"`. -/
theorem cortado_claim_false : ¬ CortadoClaim := by
  intro h
  have hfalse := h "B_cortado_1" (by decide) (by decide)
  exact absurd hfalse (by decide)

/-- C3 amended: the age token absorbs the `"cortado_"` suffix (uppercased)
exactly when the leading run ends in `"C_"` — the letter must be `C` —
and the remaining suffix starts case-insensitively with `"cortado_"`;
otherwise the age token is the bare leading run. -/
theorem cortado_absorption (stem_len : ℕ) (ignore : List String) (s : String) :
    (endsCU (s.data.takeWhile isIdadeChar) = true →
      startsCortado (s.data.drop (s.data.takeWhile isIdadeChar).length) = true →
      (parse_sigla stem_len ignore s).1 =
        ⟨(s.data.takeWhile isIdadeChar) ++ "CORTADO_".data⟩) ∧
    (endsCU (s.data.takeWhile isIdadeChar) = false ∨
      startsCortado (s.data.drop (s.data.takeWhile isIdadeChar).length) = false →
      (parse_sigla stem_len ignore s).1 = ⟨s.data.takeWhile isIdadeChar⟩) := by
  constructor
  · intro h1 h2
    show extract_idade_code s = _
    unfold extract_idade_code
    rw [if_pos (by rw [h1, h2]; rfl)]
  · intro hor
    show extract_idade_code s = _
    unfold extract_idade_code
    rcases hor with h | h <;> rw [if_neg (by rw [h]; simp)]

/-- Witness for the amended C3 on the concrete code `"NP3C_cortado_x"`. -/
theorem cortado_absorption_witness :
    (parse_sigla 2 defaultIgnoreAllcaps "NP3C_cortado_x").1 = "NP3C_CORTADO_" := by
  have h := (cortado_absorption 2 defaultIgnoreAllcaps "NP3C_cortado_x").1
    (by decide) (by decide)
  rw [h]
  decide

/-! ## C9: the scenario `"C_cortado_1"` -/

/-- C9: parsing `"C_cortado_1"` yields age code `"C_CORTADO_"`, no Greek
token, no stem, and coarse group `"C_CORTADO_"`. -/
theorem parse_sigla_cortado_scenario :
    parse_sigla 2 defaultIgnoreAllcaps "C_cortado_1" =
      ("C_CORTADO_", "", "", "C_CORTADO_") := by
  decide

/-! ## AgeDominoResolver: `_choose_minmax`, the eon/era labels, the macro
era decision table and `domino_ok` (from `classify`) -/

/-- List-prefix test (`pat` against the front of the second list). -/
def isPrefixL : List Char → List Char → Bool
  | [], _ => true
  | _ :: _, [] => false
  | a :: as, b :: bs => a = b && isPrefixL as bs

/-- Substring test, modelling Python's `pat in s`. -/
def containsL (pat : List Char) : List Char → Bool
  | [] => isPrefixL pat []
  | c :: rest => isPrefixL pat (c :: rest) || containsL pat rest

/-- Test whether the list starts with any of the given alternatives
(regex `^(p1|p2|…)` used as a boolean). -/
def startsAny (l : List Char) (pats : List (List Char)) : Bool :=
  pats.any fun p => isPrefixL p l

/-- ASCII model of Python `str.strip()`: drop whitespace on both ends. -/
def stripWS (l : List Char) : List Char :=
  ((l.dropWhile Char.isWhitespace).reverse.dropWhile Char.isWhitespace).reverse

/-- Normalisation of one free-text field for `_choose_minmax`: strip,
uppercase (ASCII model; diacritic stripping is the identity on the ASCII
data modelled here), and keep the value only if it is in the domain. -/
def normDomainTxt (x : String) (domain : List String) : Option String :=
  let s := stripWS x.data
  if s = [] then none
  else
    let u : String := ⟨s.map toUpperChar⟩
    if u ∈ domain then some u else none

/-- Embedding of `_choose_minmax`: both ends invalid → unknown pair; one
valid end snaps the other to it. -/
def choose_minmax (vmin vmax : String) (domain : List String) :
    Option String × Option String :=
  match normDomainTxt vmin domain, normDomainTxt vmax domain with
  | none, none => (none, none)
  | none, some b => (some b, some b)
  | some a, none => (some a, some a)
  | some a, some b => (some a, some b)

/-- The eon domain of `classify`. -/
def eonDomain : List String := ["ARQUEANO", "PROTEROZOICO", "FANEROZOICO"]

/-- The era domain of `classify`. -/
def eraDomain : List String := ["PALEOZOICO", "MESOZOICO", "CENOZOICO"]

/-- Eon-dominance label derived from the snapped eon pair, exactly the
`eon_dom` case chain of `classify`. -/
def eonDomLabel (a b : Option String) : String :=
  if a = none ∧ b = none then "Fanerozóico"
  else if (a = some "ARQUEANO" ∨ a = some "PROTEROZOICO") ∧
      (b = some "ARQUEANO" ∨ b = some "PROTEROZOICO") then "Pre-cambriano"
  else if (a = some "ARQUEANO" ∨ a = some "PROTEROZOICO") ∧ b = some "FANEROZOICO" then
    "Pre-cambriano|Paleozóico"
  else if a = some "FANEROZOICO" ∧ b = some "FANEROZOICO" then "Fanerozóico"
  else if a = some "FANEROZOICO" ∨ b = some "FANEROZOICO" then "Fanerozóico"
  else "Pre-cambriano"

/-- Era-stage label from the snapped era pair (`era_label` in
`classify`). -/
def eraLabel (m M : Option String) : String :=
  if m = none ∧ M = none then ""
  else if m = some "PALEOZOICO" ∧ M = some "PALEOZOICO" then "Paleozóico"
  else if m = some "PALEOZOICO" ∧ M = some "MESOZOICO" then "Paleozóico|Mesozóico"
  else if m = some "MESOZOICO" ∧ M = some "MESOZOICO" then "Mesozóico"
  else if m = some "MESOZOICO" ∧ M = some "CENOZOICO" then "Mesozóico|Cenozóico"
  else if m = some "CENOZOICO" ∧ M = some "CENOZOICO" then "Cenozóico"
  else if m = M then
    (if m = some "PALEOZOICO" then "Paleozóico"
     else if m = some "MESOZOICO" then "Mesozóico"
     else if m = some "CENOZOICO" then "Cenozóico" else "")
  else ""

/-- Marker test `has_np`: the substring `"NP"` occurs in the age code. -/
def has_np (ic : String) : Bool := containsL "NP".data ic.data

/-- Permian-marker scan: some `'P'` not preceded and not followed by an
uppercase letter (the second regex alternative `P[0-9]` is subsumed, since
a digit is not an uppercase letter). -/
def hasPermAux : Option Char → List Char → Bool
  | _, [] => false
  | prev, c :: rest =>
    (c = 'P' &&
      (match prev with
       | none => true
       | some d => !isUpperAlpha d) &&
      (match rest with
       | [] => true
       | e :: _ => !isUpperAlpha e)) ||
    hasPermAux (some c) rest

/-- Marker test `has_perm` of `classify`. -/
def has_perm (ic : String) : Bool := hasPermAux none ic.data

/-- Marker test `has_k`: `"K"` (or the redundant `"JK"`) occurs. -/
def has_k (ic : String) : Bool :=
  containsL "K".data ic.data || containsL "JK".data ic.data

/-- The fixed macro-era decision table of `classify` (argument `ic` is the
uppercased age code). -/
def macroEra (ed er : String) (ic : String) : String :=
  if ed = "Pre-cambriano" then "Pre-cambriano"
  else if ed = "Pre-cambriano|Paleozóico" then
    (if has_np ic then "Pre-cambriano" else "Paleozóico")
  else if ed = "Fanerozóico" then
    (if er = "Paleozóico" ∨ er = "Mesozóico" ∨ er = "Cenozóico" ∨ er = "" then er
     else if er = "Paleozóico|Mesozóico" then
       (if has_perm ic then "Paleozóico" else "Mesozóico")
     else if er = "Mesozóico|Cenozóico" then
       (if has_k ic then "Mesozóico" else "Cenozóico")
     else "")
  else ""

/-- Prefix test for `^P(?!P)`. -/
def startsPnotP : List Char → Bool
  | 'P' :: rest =>
    (match rest with
     | 'P' :: _ => false
     | _ => true)
  | _ => false

/-- Prefix test for `^C(?!C)`. -/
def startsCnotC : List Char → Bool
  | 'C' :: rest =>
    (match rest with
     | 'C' :: _ => false
     | _ => true)
  | _ => false

/-- Embedding of `_macro_from_idade_code_simple`: the "simple" macro era
derived from the age code's leading letters by a fixed prefix table, with
the Cambrian interface marker `"C_CORTADO"` taking priority. -/
def macro_from_idade_code_simple (idade_code : String) : String :=
  let ic := idade_code.data.map toUpperChar
  if containsL "C_CORTADO".data ic then "Paleozóico"
  else if startsAny ic ["A".data, "PP".data, "MP".data, "NP".data] then "Pre-cambriano"
  else if startsAny ic ["J".data, "K".data, "T".data, "JK".data] then "Mesozóico"
  else if startsAny ic ["Q".data, "N".data, "PG".data, "PL".data, "PE".data, "E".data] then
    "Cenozóico"
  else if startsPnotP ic || startsAny ic ["D".data] || startsCnotC ic ||
      startsAny ic ["S".data, "O".data, "CM".data] then "Paleozóico"
  else ""

/-- The four macro-era labels. -/
def fourMacroEras : List String :=
  ["Pre-cambriano", "Paleozóico", "Mesozóico", "Cenozóico"]

/-- Embedding of `allowed_set` in `classify`: the singleton of a proper
macro era, otherwise the full set. -/
def allowed_set (macro_era : String) : List String :=
  if macro_era ∈ fourMacroEras then [macro_era] else fourMacroEras

/-- Embedding of the `domino_ok` computation of `classify`. -/
def domino_ok (idade_code macro_era : String) : ℕ :=
  if macro_from_idade_code_simple idade_code ∈ allowed_set macro_era ∨
      macro_from_idade_code_simple idade_code = "" then 1 else 0

/-- One classified feature row, with the derived columns appended by
`classify`. -/
structure ClassifiedFeature where
  idade_code : String
  greek : String
  stem : String
  coarse_grp : String
  sigla_era : String
  eon_domino : String
  macro_era : String
  dom_ok : ℕ
deriving DecidableEq

/-- Per-feature part of `classify`: parse the unit code, snap the eon/era
pairs, resolve the macro era and compute the domino flag. -/
def classifyFeature (stem_len : ℕ) (ignore : List String)
    (sigla eon_min eon_max era_min era_max : String) : ClassifiedFeature :=
  let ps := parse_sigla stem_len ignore sigla
  let ep := choose_minmax eon_min eon_max eonDomain
  let rp := choose_minmax era_min era_max eraDomain
  let ed := eonDomLabel ep.1 ep.2
  let er := eraLabel rp.1 rp.2
  let icU : String := ⟨ps.1.data.map toUpperChar⟩
  let me := macroEra ed er icU
  { idade_code := ps.1
    greek := ps.2.1
    stem := ps.2.2.1
    coarse_grp := ps.2.2.2
    sigla_era := macro_from_idade_code_simple ps.1
    eon_domino := ed
    macro_era := me
    dom_ok := domino_ok ps.1 me }

/-! ## C1: the `domino_ok` consistency flag -/

theorem quad_mem_or_empty {er : String}
    (h : er = "Paleozóico" ∨ er = "Mesozóico" ∨ er = "Cenozóico" ∨ er = "") :
    er ∈ fourMacroEras ∨ er = "" := by
  rcases h with rfl | rfl | rfl | rfl
  · left; decide
  · left; decide
  · left; decide
  · right; rfl

theorem macroEra_mem_or_empty (ed er ic : String) :
    macroEra ed er ic ∈ fourMacroEras ∨ macroEra ed er ic = "" := by
  unfold macroEra
  split_ifs <;>
    first
      | (left; decide)
      | (right; rfl)
      | (apply quad_mem_or_empty; assumption)

theorem simple_macro_mem_or_empty (ic : String) :
    macro_from_idade_code_simple ic ∈ fourMacroEras ∨
      macro_from_idade_code_simple ic = "" := by
  unfold macro_from_idade_code_simple
  dsimp only
  split_ifs
  · left; decide
  · left; decide
  · left; decide
  · left; decide
  · left; decide
  · right; rfl

/-- The C1 claim exactly as stated: `domino_ok = 1` iff the simple
macro-era is empty or equals the resolved macro-era, for every feature
processed by `classify`. -/
def DominoClaim : Prop :=
  ∀ (stem_len : ℕ) (ignore : List String) (sigla emin emax rmin rmax : String),
    ((classifyFeature stem_len ignore sigla emin emax rmin rmax).dom_ok = 1 ↔
      ((classifyFeature stem_len ignore sigla emin emax rmin rmax).sigla_era = "" ∨
        (classifyFeature stem_len ignore sigla emin emax rmin rmax).sigla_era =
          (classifyFeature stem_len ignore sigla emin emax rmin rmax).macro_era))

/-- C1 counterexample: the feature with code `"P"` and eon/era fields
`("X", "X", "", "")` resolves to an empty macro era, so `allowed_set`
falls back to all four macro eras and the code sets `domino_ok = 1`,
although the simple macro-era `"Paleozóico"` is neither empty nor equal to
the (empty) resolved macro era. -/
theorem domino_claim_false : ¬ DominoClaim := fun h =>
  absurd (h 2 defaultIgnoreAllcaps "P" "X" "X" "" "") (by decide)

/-- C1 amended: `domino_ok = 1` iff the simple macro-era is empty, or the
resolved macro-era is empty (not one of the four macro eras, so the
allowed set degenerates to all four), or the two are equal. -/
theorem domino_ok_iff (stem_len : ℕ) (ignore : List String)
    (sigla emin emax rmin rmax : String) :
    ((classifyFeature stem_len ignore sigla emin emax rmin rmax).dom_ok = 1 ↔
      ((classifyFeature stem_len ignore sigla emin emax rmin rmax).sigla_era = "" ∨
        (classifyFeature stem_len ignore sigla emin emax rmin rmax).macro_era = "" ∨
        (classifyFeature stem_len ignore sigla emin emax rmin rmax).sigla_era =
          (classifyFeature stem_len ignore sigla emin emax rmin rmax).macro_era)) := by
  simp only [classifyFeature]
  set ic := (parse_sigla stem_len ignore sigla).1 with hic
  set me := macroEra
    (eonDomLabel (choose_minmax emin emax eonDomain).1 (choose_minmax emin emax eonDomain).2)
    (eraLabel (choose_minmax rmin rmax eraDomain).1 (choose_minmax rmin rmax eraDomain).2)
    ⟨ic.data.map toUpperChar⟩ with hme
  set se := macro_from_idade_code_simple ic with hse
  have hone : domino_ok ic me = 1 ↔ (se ∈ allowed_set me ∨ se = "") := by
    unfold domino_ok
    rw [← hse]
    split_ifs with hcond
    · exact ⟨fun _ => hcond, fun _ => rfl⟩
    · exact ⟨fun h0 => absurd h0 (by norm_num), fun hc => absurd hc hcond⟩
  rw [hone]
  have hmem := macroEra_mem_or_empty
    (eonDomLabel (choose_minmax emin emax eonDomain).1 (choose_minmax emin emax eonDomain).2)
    (eraLabel (choose_minmax rmin rmax eraDomain).1 (choose_minmax rmin rmax eraDomain).2)
    ⟨ic.data.map toUpperChar⟩
  rw [← hme] at hmem
  by_cases hin : me ∈ fourMacroEras
  · have hne : me ≠ "" := by
      intro hcon
      rw [hcon] at hin
      exact absurd hin (by decide)
    unfold allowed_set
    rw [if_pos hin]
    simp only [List.mem_singleton]
    constructor
    · rintro (h | h)
      · right; right; exact h
      · left; exact h
    · rintro (h | h | h)
      · right; exact h
      · exact absurd h hne
      · left; exact h
  · have hempty : me = "" := hmem.resolve_left hin
    unfold allowed_set
    rw [if_neg hin]
    constructor
    · intro _
      right; left; exact hempty
    · intro _
      rcases simple_macro_mem_or_empty ic with h | h
      · left; rw [← hse] at h; exact h
      · right; rw [← hse] at h; exact h

/-! ## ColorResolver collision passes (`_build_color_map_for_coarse`,
rounds A, B and the jitter rounds) -/

/-- Per-group state of the color map built by
`_build_color_map_for_coarse`: the current group color and the three
source colors used by the resolution passes. -/
structure GEntry where
  grp_color : String
  idade_color : String
  roc_colors : String
  r1_colors : String
deriving DecidableEq

/-- The color map in Python dict insertion order. -/
abbrev ColorMap := List (String × GEntry)

/-- Colors in order of first appearance (Python dict-key order of the
inverse map built by `dup_sets`). -/
def firstColors (cmap : ColorMap) : List String :=
  cmap.foldl (fun acc p => if p.2.grp_color ∈ acc then acc else acc ++ [p.2.grp_color]) []

/-- Embedding of `dup_sets`: the groups sharing each color, for colors
carried by at least two groups. -/
def dup_sets (cmap : ColorMap) : List (List String) :=
  (firstColors cmap).filterMap fun c =>
    let gl := (cmap.filter fun p => decide (p.2.grp_color = c)).map Prod.fst
    if 2 ≤ gl.length then some gl else none

/-- Entry-wise update map with failure, mirroring the in-place updates of
the Python passes (each entry is rewritten independently). -/
def mapO {α : Type} (f : α → Option α) : List α → Option (List α)
  | [] => some []
  | a :: as =>
    match f a, mapO f as with
    | some b, some bs => some (b :: bs)
    | _, _ => none

/-- Round A recoloring of one colliding group: blend age color and
lithology (ROC) mix 50/50, using whichever is present. -/
def passA_entry (e : GEntry) : Option GEntry :=
  if e.roc_colors ≠ "" then
    let base := if e.idade_color ≠ "" then e.idade_color else e.roc_colors
    (mix_two base e.roc_colors (1/2)).map fun c => { e with grp_color := c }
  else some e

/-- Embedding of round A of `_build_color_map_for_coarse`: recolor the
groups currently in a collision set. -/
def passA (cmap : ColorMap) : Option ColorMap :=
  let dups := (dup_sets cmap).join
  mapO (fun p => if p.1 ∈ dups then (passA_entry p.2).map fun e => (p.1, e) else some p) cmap

/-- Round B recoloring of one colliding group: blend the age+ROC base
with the rock-type (R1) mix 50/50. -/
def passB_entry (e : GEntry) : Option GEntry :=
  let baseOpt : Option String :=
    if e.roc_colors ≠ "" then mix_two e.idade_color e.roc_colors (1/2)
    else some (if e.idade_color ≠ "" then e.idade_color
      else if e.r1_colors ≠ "" then e.r1_colors else "#DDDDDD")
  match baseOpt with
  | none => none
  | some base =>
    if e.r1_colors ≠ "" then
      (mix_two base e.r1_colors (1/2)).map fun c => { e with grp_color := c }
    else some { e with grp_color := base }

/-- Embedding of round B of `_build_color_map_for_coarse`. -/
def passB (cmap : ColorMap) : Option ColorMap :=
  let dups := (dup_sets cmap).join
  mapO (fun p => if p.1 ∈ dups then (passB_entry p.2).map fun e => (p.1, e) else some p) cmap

/-- Lexicographic character-code comparison (Python string `<`). -/
def charListLt : List Char → List Char → Bool
  | [], [] => false
  | [], _ :: _ => true
  | _ :: _, [] => false
  | a :: as, b :: bs => if a < b then true else if b < a then false else charListLt as bs

/-- Stable insertion into a sorted list of strings. -/
def sortStringsInsert (s : String) : List String → List String
  | [] => [s]
  | t :: ts => if charListLt s.data t.data then s :: t :: ts else t :: sortStringsInsert s ts

/-- Stable sort of group names, modelling Python `sorted(group_list)`. -/
def sortStrings : List String → List String
  | [] => []
  | s :: ss => sortStringsInsert s (sortStrings ss)

/-- Rank of each colliding group inside its alphabetically sorted
collision set (`for i, grp in enumerate(sorted(group_list))`). -/
def collisionRanks (cmap : ColorMap) : List (String × ℕ) :=
  ((dup_sets cmap).map fun gl => (sortStrings gl).enum.map fun p => (p.2, p.1)).join

/-- Rank lookup for one group. -/
def lookupRank (ranks : List (String × ℕ)) (g : String) : Option ℕ :=
  (ranks.find? fun p => decide (p.1 = g)).map Prod.snd

/-- Embedding of one jitter round of round C: every group in a collision
set is re-jittered with `dh = 0.05` and `dl = 0.02` after the first round
(`0.015` in the first round), keyed by its rank. -/
def jitterRound (tries : ℕ) (cmap : ColorMap) : Option ColorMap :=
  let ranks := collisionRanks cmap
  mapO (fun p =>
    match lookupRank ranks p.1 with
    | some i =>
      let base := if p.2.grp_color ≠ "" then p.2.grp_color else "#DDDDDD"
      (jitter base i (1/20) (if 0 < tries then 1/50 else 3/200)).map
        fun c => (p.1, { p.2 with grp_color := c })
    | none => some p) cmap

/-- Number of groups sharing an identical resolved color with at least
one other group. -/
def collisionCount (cmap : ColorMap) : ℕ :=
  cmap.countP fun p => decide (2 ≤ cmap.countP fun q => decide (q.2.grp_color = p.2.grp_color))

/-! ## C2: collision count across resolution passes -/

/-- The C2 claim exactly as stated: the number of groups sharing an
identical color with at least one other group does not increase after
pass A, after pass B, and after each jitter round. -/
def CollisionMonotoneClaim : Prop :=
  (∀ cmap cmap' : ColorMap, passA cmap = some cmap' →
    collisionCount cmap' ≤ collisionCount cmap) ∧
  (∀ cmap cmap' : ColorMap, passB cmap = some cmap' →
    collisionCount cmap' ≤ collisionCount cmap) ∧
  (∀ t : ℕ, ∀ cmap cmap' : ColorMap, jitterRound t cmap = some cmap' →
    collisionCount cmap' ≤ collisionCount cmap)

/-- The four-group configuration refuting monotonicity of the collision
count: `g1`/`g2` collide and are recolored by round A onto the previously
unique colors of `g3`/`g4`. -/
def collisionCexMap : ColorMap :=
  [("g1", ⟨"#111111", "#020202", "#FEFEFE", ""⟩),
   ("g2", ⟨"#111111", "#000000", "#808080", ""⟩),
   ("g3", ⟨"#808080", "", "", ""⟩),
   ("g4", ⟨"#404040", "", "", ""⟩)]

/-- The result of round A on `collisionCexMap`: `g1` is recolored to
`(2+254)/2 = 128` per channel and `g2` to `(0+128)/2 = 64`. -/
def collisionCexMapA : ColorMap :=
  [("g1", ⟨"#808080", "#020202", "#FEFEFE", ""⟩),
   ("g2", ⟨"#404040", "#000000", "#808080", ""⟩),
   ("g3", ⟨"#808080", "", "", ""⟩),
   ("g4", ⟨"#404040", "", "", ""⟩)]

theorem passA_collisionCexMap : passA collisionCexMap = some collisionCexMapA := by
  with_unfolding_all rfl

/-- C2 counterexample: on `collisionCexMap` the collision count rises
from 2 to 4 across pass A, refuting the claim at a concrete input. -/
theorem collision_claim_false : ¬ CollisionMonotoneClaim := by
  intro h
  have hA := h.1 collisionCexMap collisionCexMapA passA_collisionCexMap
  have h1 : collisionCount collisionCexMap = 2 := by decide
  have h2 : collisionCount collisionCexMapA = 4 := by decide
  rw [h1, h2] at hA
  omega

theorem mapO_mem_fix {α : Type} {f : α → Option α} :
    ∀ {l l' : List α}, mapO f l = some l' → ∀ {x : α}, x ∈ l → f x = some x → x ∈ l' := by
  intro l
  induction l with
  | nil =>
    intro l' h x hx
    simp at hx
  | cons a as ih =>
    intro l' h x hx hfx
    unfold mapO at h
    rcases hfa : f a with _ | b <;> rw [hfa] at h
    · exact absurd h (by simp)
    · rcases hrest : mapO f as with _ | bs <;> rw [hrest] at h
      · exact absurd h (by simp)
      · dsimp at h
        obtain rfl : b :: bs = l' := Option.some.inj h
        rcases List.mem_cons.mp hx with rfl | hx2
        · have hb : b = x := by
            rw [hfa] at hfx
            exact Option.some.inj hfx
          subst hb
          exact List.mem_cons_self _ _
        · exact List.mem_cons_of_mem _ (ih hrest hx2 hfx)

theorem keys_nodup_entry_unique :
    ∀ {cmap : ColorMap}, (cmap.map Prod.fst).Nodup →
      ∀ {g : String} {e e2 : GEntry}, (g, e) ∈ cmap → (g, e2) ∈ cmap → e = e2 := by
  intro cmap
  induction cmap with
  | nil => simp
  | cons p rest ih =>
    intro hnd g e e2 h1 h2
    rw [List.map_cons, List.nodup_cons] at hnd
    rcases List.mem_cons.mp h1 with heq1 | h1t
    · rcases List.mem_cons.mp h2 with heq2 | h2t
      · exact congrArg Prod.snd (heq1.trans heq2.symm)
      · exfalso
        apply hnd.1
        simp only [List.mem_map]
        exact ⟨(g, e2), h2t, by rw [← heq1]⟩
    · rcases List.mem_cons.mp h2 with heq2 | h2t
      · exfalso
        apply hnd.1
        simp only [List.mem_map]
        exact ⟨(g, e), h1t, by rw [← heq2]⟩
      · exact ih hnd.2 h1t h2t

theorem not_mem_dup_join {cmap : ColorMap} (hnd : (cmap.map Prod.fst).Nodup)
    {g : String} {e : GEntry} (hmem : (g, e) ∈ cmap)
    (huniq : cmap.countP (fun q => decide (q.2.grp_color = e.grp_color)) = 1) :
    g ∉ (dup_sets cmap).join := by
  intro hg
  rw [List.mem_join] at hg
  obtain ⟨gl, hgl, hggl⟩ := hg
  unfold dup_sets at hgl
  rw [List.mem_filterMap] at hgl
  obtain ⟨c, -, hc⟩ := hgl
  dsimp only at hc
  by_cases hlen : 2 ≤ ((cmap.filter fun p => decide (p.2.grp_color = c)).map Prod.fst).length
  · rw [if_pos hlen] at hc
    obtain rfl := Option.some.inj hc
    rw [List.mem_map] at hggl
    obtain ⟨⟨g2, e2⟩, hin, hfst⟩ := hggl
    dsimp at hfst
    subst hfst
    have hin2 := List.mem_of_mem_filter hin
    have heq : e = e2 := keys_nodup_entry_unique hnd hmem hin2
    have hcol : e2.grp_color = c := by
      have hb := List.of_mem_filter hin
      simpa using hb
    rw [← heq] at hcol
    rw [List.countP_eq_length_filter] at huniq
    rw [List.length_map, ← hcol] at hlen
    rw [huniq] at hlen
    omega
  · rw [if_neg hlen] at hc
    exact Option.noConfusion hc

theorem mem_sortStringsInsert {x s : String} :
    ∀ {l : List String}, x ∈ sortStringsInsert s l ↔ x = s ∨ x ∈ l := by
  intro l
  induction l with
  | nil => simp [sortStringsInsert]
  | cons t ts ih =>
    simp only [sortStringsInsert]
    split_ifs
    · simp only [List.mem_cons]
    · simp only [List.mem_cons, ih]
      tauto

theorem mem_sortStrings {x : String} :
    ∀ {l : List String}, x ∈ sortStrings l ↔ x ∈ l := by
  intro l
  induction l with
  | nil => simp [sortStrings]
  | cons s ss ih =>
    simp only [sortStrings, mem_sortStringsInsert, ih, List.mem_cons]

theorem lookupRank_eq_none {cmap : ColorMap} {g : String}
    (hnotin : g ∉ (dup_sets cmap).join) :
    lookupRank (collisionRanks cmap) g = none := by
  unfold lookupRank
  have hfind : (collisionRanks cmap).find? (fun p => decide (p.1 = g)) = none := by
    rw [List.find?_eq_none]
    intro p hp
    simp only [decide_eq_true_eq]
    intro hcon
    apply hnotin
    rw [List.mem_join]
    unfold collisionRanks at hp
    rw [List.mem_join] at hp
    obtain ⟨rl, hrl, hprl⟩ := hp
    rw [List.mem_map] at hrl
    obtain ⟨gl, hgl, rfl⟩ := hrl
    refine ⟨gl, hgl, ?_⟩
    rw [List.mem_map] at hprl
    obtain ⟨⟨i, a⟩, hia, hpa⟩ := hprl
    have ha : a = g := by
      rw [← hpa] at hcon
      exact hcon
    subst ha
    have hmem2 : a ∈ (sortStrings gl).enum.map Prod.snd := List.mem_map_of_mem Prod.snd hia
    rw [List.enum_map_snd] at hmem2
    exact mem_sortStrings.mp hmem2
  rw [hfind]
  rfl

/-- C2 amended: each resolution pass (A, B, and each jitter round)
recolors only groups that currently share their color with at least one
other group; any group whose color is unique before the pass is left
entirely unchanged.  The collision count itself can increase (see the
counterexample), so non-increase is not guaranteed. -/
theorem passes_preserve_unique_groups (cmap : ColorMap)
    (hkeys : (cmap.map Prod.fst).Nodup) (g : String) (e : GEntry)
    (hmem : (g, e) ∈ cmap)
    (huniq : cmap.countP (fun q => decide (q.2.grp_color = e.grp_color)) = 1) :
    (∀ cmap', passA cmap = some cmap' → (g, e) ∈ cmap') ∧
    (∀ cmap', passB cmap = some cmap' → (g, e) ∈ cmap') ∧
    (∀ t : ℕ, ∀ cmap', jitterRound t cmap = some cmap' → (g, e) ∈ cmap') := by
  have hnd := not_mem_dup_join hkeys hmem huniq
  refine ⟨?_, ?_, ?_⟩
  · intro cmap' h
    simp only [passA] at h
    exact mapO_mem_fix h hmem (if_neg hnd)
  · intro cmap' h
    simp only [passB] at h
    exact mapO_mem_fix h hmem (if_neg hnd)
  · intro t cmap' h
    simp only [jitterRound] at h
    refine mapO_mem_fix h hmem ?_
    show (match lookupRank (collisionRanks cmap) (g, e).1 with
      | some i =>
        (jitter (if (g, e).2.grp_color ≠ "" then (g, e).2.grp_color else "#DDDDDD") i
          (1/20) (if 0 < t then 1/50 else 3/200)).map
          fun c => ((g, e).1, { (g, e).2 with grp_color := c })
      | none => some (g, e)) = some (g, e)
    rw [lookupRank_eq_none hnd]

/-- Witness for the amended C2: in the counterexample configuration the
uniquely colored group `g3` survives pass A unchanged. -/
theorem passes_preserve_unique_groups_witness :
    (collisionCexMap.map Prod.fst).Nodup ∧
    ("g3", (⟨"#808080", "", "", ""⟩ : GEntry)) ∈ collisionCexMap ∧
    ("g3", (⟨"#808080", "", "", ""⟩ : GEntry)) ∈ collisionCexMapA := by
  refine ⟨by decide, by decide, ?_⟩
  exact (passes_preserve_unique_groups collisionCexMap (by decide) "g3"
    ⟨"#808080", "", "", ""⟩ (by decide) (by decide)).1 collisionCexMapA passA_collisionCexMap

/-! ## C5: "nice number" ceiling rounding (`_round_nice` in
`width_to_scale`) -/

/-- Exact floor of the base-10 logarithm of a positive rational
(`math.floor(math.log10(n))` idealised to exact arithmetic). -/
def floorLog10 (q : ℚ) : ℤ :=
  if 1 ≤ q then (Nat.log 10 ⌊q⌋.toNat : ℤ) else -(Nat.clog 10 ⌈1 / q⌉.toNat : ℤ)

/-- The step sequence `[1, 2, 2.5, 5, 10]` of `_round_nice`. -/
def niceSteps : List ℚ := [1, 2, 5/2, 5, 10]

/-- Embedding of `_round_nice(n, mode="ceil")`: the first step value
`s * 10^k` that is `≥ n`, rounded up with `math.ceil` and returned as an
integer; non-positive input returns 1; the unreachable fallback mirrors
`int(10 ** (k + 1))`. -/
def round_nice_ceil (n : ℚ) : ℤ :=
  if n ≤ 0 then 1
  else
    match niceSteps.find? (fun s => decide (n ≤ s * (10 : ℚ) ^ floorLog10 n)) with
    | some s => ⌈s * (10 : ℚ) ^ floorLog10 n⌉
    | none => pyInt ((10 : ℚ) ^ (floorLog10 n + 1))

theorem floorLog10_bounds {q : ℚ} (hq : 0 < q) :
    (10 : ℚ) ^ floorLog10 q ≤ q ∧ q < (10 : ℚ) ^ (floorLog10 q + 1) := by
  unfold floorLog10
  by_cases h1 : 1 ≤ q
  · rw [if_pos h1]
    have hfl : 1 ≤ ⌊q⌋ := Int.le_floor.mpr (by exact_mod_cast h1)
    set m : ℕ := ⌊q⌋.toNat with hm
    have hmz : (m : ℤ) = ⌊q⌋ := Int.toNat_of_nonneg (by omega)
    have hm0 : m ≠ 0 := by omega
    constructor
    · have hlow : (10 : ℕ) ^ Nat.log 10 m ≤ m := Nat.pow_log_le_self 10 hm0
      have : ((10 : ℕ) ^ Nat.log 10 m : ℚ) ≤ (m : ℚ) := by exact_mod_cast hlow
      calc (10 : ℚ) ^ ((Nat.log 10 m : ℤ)) = ((10 : ℕ) ^ Nat.log 10 m : ℚ) := by
            rw [zpow_natCast]; push_cast; ring
        _ ≤ (m : ℚ) := this
        _ ≤ q := by
            have := Int.floor_le q
            rw [← hmz] at this
            exact_mod_cast this
    · have hup : m < 10 ^ (Nat.log 10 m + 1) := Nat.lt_pow_succ_log_self (by norm_num) m
      have hq1 : q < (m : ℚ) + 1 := by
        have := Int.lt_floor_add_one q
        rw [← hmz] at this
        exact_mod_cast this
      have hc : ((m : ℚ) + 1) ≤ ((10 : ℕ) ^ (Nat.log 10 m + 1) : ℚ) := by exact_mod_cast hup
      calc q < (m : ℚ) + 1 := hq1
        _ ≤ ((10 : ℕ) ^ (Nat.log 10 m + 1) : ℚ) := hc
        _ = (10 : ℚ) ^ ((Nat.log 10 m : ℤ) + 1) := by
            rw [show (Nat.log 10 m : ℤ) + 1 = ((Nat.log 10 m + 1 : ℕ) : ℤ) by push_cast; ring,
              zpow_natCast]
            push_cast
            ring
  · rw [if_neg h1]
    push_neg at h1
    have hinv : 1 < 1 / q := by
      rw [lt_div_iff hq]
      linarith
    have hceil2 : 2 ≤ ⌈1 / q⌉ := by
      have : (1 : ℤ) < ⌈1 / q⌉ := Int.lt_ceil.mpr (by exact_mod_cast hinv)
      omega
    set m : ℕ := ⌈1 / q⌉.toNat with hm
    have hmz : (m : ℤ) = ⌈1 / q⌉ := Int.toNat_of_nonneg (by omega)
    have hm2 : 2 ≤ m := by omega
    set c : ℕ := Nat.clog 10 m with hc
    have hc1 : 1 ≤ c := by
      by_contra hcon
      push_neg at hcon
      interval_cases c
      · have := Nat.le_pow_clog (by norm_num : (1:ℕ) < 10) m
        rw [← hc] at this
        simp at this
        omega
    constructor
    · have hle : m ≤ 10 ^ c := by
        rw [hc]
        exact Nat.le_pow_clog (by norm_num) m
      have hq2 : 1 / q ≤ (m : ℚ) := by
        have := Int.le_ceil (1 / q)
        rw [← hmz] at this
        exact_mod_cast this
      have hmq : (m : ℚ) ≤ ((10 : ℕ) ^ c : ℚ) := by exact_mod_cast hle
      have hchain : 1 / q ≤ ((10 : ℕ) ^ c : ℚ) := le_trans hq2 hmq
      have hpow : (0 : ℚ) < ((10 : ℕ) ^ c : ℚ) := by positivity
      have := (one_div_le hq hpow).mp hchain
      calc (10 : ℚ) ^ (-(c : ℤ)) = 1 / ((10 : ℕ) ^ c : ℚ) := by
            rw [zpow_neg, zpow_natCast]
            push_cast
            rw [one_div]
        _ ≤ q := this
    · have hlt : 10 ^ (c - 1) < m := by
        by_contra hcon
        push_neg at hcon
        have := (Nat.le_pow_iff_clog_le (by norm_num : (1:ℕ) < 10)).mp hcon
        omega
      have hltq : ((10 : ℕ) ^ (c - 1) : ℚ) < 1 / q := by
        have hz : ((10 : ℕ) ^ (c - 1) : ℤ) < ⌈1 / q⌉ := by
          rw [← hmz]
          exact_mod_cast hlt
        have := Int.lt_ceil.mp hz
        exact_mod_cast this
      have hpow : (0 : ℚ) < ((10 : ℕ) ^ (c - 1) : ℚ) := by positivity
      have hq3 : q < 1 / ((10 : ℕ) ^ (c - 1) : ℚ) := by
        rw [lt_div_iff hpow]
        have h4 : q * ((10 : ℕ) ^ (c - 1) : ℚ) < q * (1 / q) :=
          mul_lt_mul_of_pos_left hltq hq
        have h5 : q * (1 / q) = 1 := by field_simp
        rw [h5] at h4
        exact h4
      calc q < 1 / ((10 : ℕ) ^ (c - 1) : ℚ) := hq3
        _ = (10 : ℚ) ^ (-(c : ℤ) + 1) := by
            rw [show -(c : ℤ) + 1 = -((c : ℤ) - 1) by ring,
              show (c : ℤ) - 1 = ((c - 1 : ℕ) : ℤ) by omega, zpow_neg, zpow_natCast]
            push_cast
            rw [one_div]

/-- Membership of the nice-number sequence `{1, 2, 2.5, 5} × 10^k`. -/
def inNiceSeq (y : ℚ) : Prop :=
  ∃ j : ℤ, y = (10 : ℚ) ^ j ∨ y = 2 * (10 : ℚ) ^ j ∨
    y = (5/2) * (10 : ℚ) ^ j ∨ y = 5 * (10 : ℚ) ^ j

/-- The C5 claim exactly as stated: for every positive exact denominator,
ceil-mode nice rounding returns the smallest sequence value that is `≥`
the exact denominator. -/
def RoundNiceCeilClaim : Prop :=
  ∀ n : ℚ, 0 < n →
    inNiceSeq (round_nice_ceil n) ∧ n ≤ round_nice_ceil n ∧
      ∀ y : ℚ, inNiceSeq y → n ≤ y → (round_nice_ceil n : ℚ) ≤ y

theorem round_nice_ceil_eval : round_nice_ceil (11/5) = 3 := by
  have hk : floorLog10 (11/5) = 0 := by
    unfold floorLog10
    rw [if_pos (by norm_num)]
    rw [show ⌊(11/5 : ℚ)⌋ = 2 by norm_num [Int.floor_eq_iff]]
    norm_num [Nat.log_eq_zero_iff]
  unfold round_nice_ceil
  rw [if_neg (by norm_num), hk]
  simp only [niceSteps, zpow_zero, mul_one]
  rw [List.find?_cons_of_neg _ (by norm_num),
    List.find?_cons_of_neg _ (by norm_num),
    List.find?_cons_of_pos _ (by norm_num)]
  norm_num [Int.ceil_eq_iff]

/-- C5 counterexample: at the exact denominator `2.2` the code returns
`int(math.ceil(2.5)) = 3`, while the smallest sequence value `≥ 2.2` is
`2.5`; the returned value is not minimal (and not in the sequence). -/
theorem round_nice_claim_false : ¬ RoundNiceCeilClaim := by
  intro h
  obtain ⟨-, -, hmin⟩ := h (11/5) (by norm_num)
  have h52 : inNiceSeq (5/2) := ⟨0, Or.inr (Or.inr (Or.inl (by norm_num)))⟩
  have := hmin (5/2) h52 (by norm_num)
  rw [round_nice_ceil_eval] at this
  norm_num at this

/-- C5 amended: ceil-mode nice rounding returns `⌈v⌉` for the smallest
value `v` in `{1, 2, 2.5, 5, 10} × 10^⌊log₁₀ n⌋` with `v ≥ n`; in
particular the returned denominator is never smaller than the exact
value.  (Only the ceiling of the non-integer sequence value `2.5 × 10^k`,
for `k ≤ 0`, differs from the sequence value itself.) -/
theorem round_nice_ceil_spec (n : ℚ) (hn : 0 < n) :
    n ≤ round_nice_ceil n ∧
    ∃ s ∈ niceSteps, n ≤ s * (10 : ℚ) ^ floorLog10 n ∧
      round_nice_ceil n = ⌈s * (10 : ℚ) ^ floorLog10 n⌉ ∧
      ∀ s2 ∈ niceSteps, n ≤ s2 * (10 : ℚ) ^ floorLog10 n → s ≤ s2 := by
  obtain ⟨hlow, hhigh⟩ := floorLog10_bounds hn
  set k := floorLog10 n with hk
  have hpk : (0 : ℚ) < (10 : ℚ) ^ k := zpow_pos (by norm_num) k
  have h10 : n ≤ 10 * (10 : ℚ) ^ k := by
    have he : (10 : ℚ) ^ (k + 1) = (10 : ℚ) ^ k * 10 := zpow_add_one₀ (by norm_num) k
    rw [he] at hhigh
    linarith
  have hnot : ¬ n ≤ 0 := not_le.mpr hn
  unfold round_nice_ceil
  rw [if_neg hnot, ← hk]
  simp only [niceSteps]
  by_cases c1 : n ≤ 1 * (10 : ℚ) ^ k
  · rw [List.find?_cons_of_pos _ (by simpa using c1)]
    refine ⟨le_trans c1 (Int.le_ceil _), 1, by norm_num [niceSteps], c1, rfl, ?_⟩
    intro s2 hs2 _
    have hs2five : s2 = 1 ∨ s2 = 2 ∨ s2 = 5/2 ∨ s2 = 5 ∨ s2 = 10 := by
      simpa [niceSteps] using hs2
    rcases hs2five with rfl | rfl | rfl | rfl | rfl <;> norm_num
  · rw [List.find?_cons_of_neg _ (by simpa using c1)]
    by_cases c2 : n ≤ 2 * (10 : ℚ) ^ k
    · rw [List.find?_cons_of_pos _ (by simpa using c2)]
      refine ⟨le_trans c2 (Int.le_ceil _), 2, by norm_num [niceSteps], c2, rfl, ?_⟩
      intro s2 hs2 hcond
      have hs2five : s2 = 1 ∨ s2 = 2 ∨ s2 = 5/2 ∨ s2 = 5 ∨ s2 = 10 := by
        simpa [niceSteps] using hs2
      rcases hs2five with rfl | rfl | rfl | rfl | rfl
      · exact absurd hcond c1
      all_goals norm_num
    · rw [List.find?_cons_of_neg _ (by simpa using c2)]
      by_cases c3 : n ≤ (5/2) * (10 : ℚ) ^ k
      · rw [List.find?_cons_of_pos _ (by simpa using c3)]
        refine ⟨le_trans c3 (Int.le_ceil _), 5/2, by norm_num [niceSteps], c3, rfl, ?_⟩
        intro s2 hs2 hcond
        have hs2five : s2 = 1 ∨ s2 = 2 ∨ s2 = 5/2 ∨ s2 = 5 ∨ s2 = 10 := by
          simpa [niceSteps] using hs2
        rcases hs2five with rfl | rfl | rfl | rfl | rfl
        · exact absurd hcond c1
        · exact absurd hcond c2
        all_goals norm_num
      · rw [List.find?_cons_of_neg _ (by simpa using c3)]
        by_cases c4 : n ≤ 5 * (10 : ℚ) ^ k
        · rw [List.find?_cons_of_pos _ (by simpa using c4)]
          refine ⟨le_trans c4 (Int.le_ceil _), 5, by norm_num [niceSteps], c4, rfl, ?_⟩
          intro s2 hs2 hcond
          have hs2five : s2 = 1 ∨ s2 = 2 ∨ s2 = 5/2 ∨ s2 = 5 ∨ s2 = 10 := by
            simpa [niceSteps] using hs2
          rcases hs2five with rfl | rfl | rfl | rfl | rfl
          · exact absurd hcond c1
          · exact absurd hcond c2
          · exact absurd hcond c3
          all_goals norm_num
        · rw [List.find?_cons_of_neg _ (by simpa using c4),
            List.find?_cons_of_pos _ (by simpa using h10)]
          refine ⟨le_trans h10 (Int.le_ceil _), 10, by norm_num [niceSteps], h10, rfl, ?_⟩
          intro s2 hs2 hcond
          have hs2five : s2 = 1 ∨ s2 = 2 ∨ s2 = 5/2 ∨ s2 = 5 ∨ s2 = 10 := by
            simpa [niceSteps] using hs2
          rcases hs2five with rfl | rfl | rfl | rfl | rfl
          · exact absurd hcond c1
          · exact absurd hcond c2
          · exact absurd hcond c3
          · exact absurd hcond c4
          · norm_num

/-- Witness for the amended C5 at the spec scenario's exact denominator
`168750`. -/
theorem round_nice_ceil_spec_witness :
    (0 : ℚ) < 168750 ∧ (168750 : ℚ) ≤ round_nice_ceil 168750 :=
  ⟨by norm_num, (round_nice_ceil_spec 168750 (by norm_num)).1⟩

/-! ## C4: failure behavior without a metric reference frame
(`width_to_scale` strategy selection and the `_area_series` strategy check
in `cull_small_parts_by_scale`) -/

/-- Kind of coordinate reference system attached to the data. -/
inductive CrsKind
  | noCrs
  | projected
  | geographic
deriving DecidableEq

/-- Environment of one scale/area computation: the call configuration and
the outcome of the (external) reprojection machinery. `reprojectOk` is
false when `to_crs` raises. Reprojection from CRS-less data always
raises. -/
structure ScaleEnv where
  preferAreaCrs : Bool
  hasAreaCrs : Bool
  crs : CrsKind
  reprojectOk : Bool
  widthNative : ℚ
  widthMetric : ℚ
deriving DecidableEq

/-- Strategy selection of `width_to_scale` and the width it measures:
the explicit degree-to-meter opt-out, the three metric paths, or the
silent fallback that keeps the current (possibly angular) units (the
`except` branch setting `strategy = "fallback:…"`). -/
def widthStrategy (env : ScaleEnv) : String × ℚ :=
  if env.preferAreaCrs = false ∧ env.crs = CrsKind.geographic then
    ("geographic_constant_1deg≈108000m", env.widthNative * 108000)
  else if env.preferAreaCrs = true ∧ env.hasAreaCrs = true then
    (if env.reprojectOk = true ∧ env.crs ≠ CrsKind.noCrs then ("user_crs", env.widthMetric)
     else ("fallback", env.widthNative))
  else if env.crs = CrsKind.projected then ("projected_native", env.widthNative)
  else
    (if env.reprojectOk = true ∧ env.crs ≠ CrsKind.noCrs then ("auto_laea", env.widthMetric)
     else ("fallback", env.widthNative))

/-- Control-flow model of `width_to_scale`: after strategy selection the
only failure is a non-positive (or non-finite) measured width; the
fallback path proceeds silently.  Returns the strategy and the exact
scale denominator. -/
def width_to_scale_model (env : ScaleEnv) (contentW : ℚ) : Except String (String × ℚ) :=
  let sw := widthStrategy env
  if sw.2 ≤ 0 then Except.error "Largura espacial inválida; verifique o CRS/geom."
  else Except.ok (sw.1, sw.2 / contentW)

/-- Strategy recorded by `_area_series`: the user CRS, the projected
native CRS, the auto-LAEA frame, no-CRS equal weights, or the exception
fallback with equal weights. -/
def areaStrategy (env : ScaleEnv) : String :=
  if env.hasAreaCrs = true then
    (if env.reprojectOk = true ∧ env.crs ≠ CrsKind.noCrs then "user_crs"
     else "fallback_equal_weights")
  else
    match env.crs with
    | CrsKind.projected => "projected_native"
    | CrsKind.geographic =>
      if env.reprojectOk = true then "auto_laea" else "fallback_equal_weights"
    | CrsKind.noCrs => "no_crs_equal_weights"

/-- String prefix test on character data. -/
def startsWithL (pre s : String) : Bool := isPrefixL pre.data s.data

/-- The metric-strategy guard of `cull_small_parts_by_scale`: raise when
the area strategy starts with `"no_crs"` or `"fallback"`. -/
def cull_requires_metric (env : ScaleEnv) : Except String Unit :=
  if startsWithL "no_crs" (areaStrategy env) || startsWithL "fallback" (areaStrategy env) then
    Except.error "Não dá para podar por escala sem CRS métrico."
  else Except.ok ()

/-- The C4 claim exactly as stated: whenever an area-based policy is
requested and no metric frame can be established (outside the explicit
opt-out), both the scale computation and the consolidation guard fail
explicitly. -/
def MetricFailClaim : Prop :=
  (∀ env : ScaleEnv, ∀ contentW : ℚ, 0 < contentW →
    env.preferAreaCrs = true →
    (widthStrategy env).1 = "fallback" →
    ∃ msg, width_to_scale_model env contentW = Except.error msg) ∧
  (∀ env : ScaleEnv,
    (startsWithL "no_crs" (areaStrategy env) = true ∨
      startsWithL "fallback" (areaStrategy env) = true) →
    ∃ msg, cull_requires_metric env = Except.error msg)

/-- C4 counterexample: for CRS-less data with no user area CRS,
`width_to_scale` lands in the `except` fallback (`strategy =
"fallback:…"`), keeps the current units and returns a scale denominator
silently instead of raising — the claim fails for the scale computation.
(The data width `5` is measured in whatever units the data carries.) -/
theorem metric_fail_claim_false : ¬ MetricFailClaim := by
  intro h
  obtain ⟨msg, hmsg⟩ := h.1 ⟨true, false, CrsKind.noCrs, true, 5, 5⟩ 1 (by norm_num) rfl
    (by with_unfolding_all rfl)
  have hok : width_to_scale_model ⟨true, false, CrsKind.noCrs, true, 5, 5⟩ 1 =
      Except.ok ("fallback", 5) := by
    with_unfolding_all rfl
  rw [hok] at hmsg
  exact Except.noConfusion hmsg

/-- C4 amended: the consolidation guard does fail explicitly whenever the
area strategy is the no-CRS or exception fallback; the scale computation,
however, only fails when the measured width is non-positive — on a
fallback strategy it silently measures in the current (possibly angular)
units.  The degree-to-meter opt-out remains the explicit exception. -/
theorem metric_failure_behavior :
    (∀ env : ScaleEnv,
      (startsWithL "no_crs" (areaStrategy env) = true ∨
        startsWithL "fallback" (areaStrategy env) = true) →
      cull_requires_metric env = Except.error "Não dá para podar por escala sem CRS métrico.") ∧
    (∀ env : ScaleEnv, ∀ contentW : ℚ,
      (∃ msg, width_to_scale_model env contentW = Except.error msg) ↔
        (widthStrategy env).2 ≤ 0) := by
  constructor
  · intro env h
    unfold cull_requires_metric
    rw [if_pos (by rcases h with h | h <;> simp [h])]
  · intro env contentW
    unfold width_to_scale_model
    by_cases hw : (widthStrategy env).2 ≤ 0
    · rw [if_pos hw]
      exact ⟨fun _ => hw, fun _ => ⟨_, rfl⟩⟩
    · rw [if_neg hw]
      constructor
      · rintro ⟨msg, hmsg⟩
        exact Except.noConfusion hmsg
      · intro hcon
        exact absurd hcon hw

/-- Witness for the amended C4: with a user area CRS but a failing
reprojection, the area strategy is the exception fallback and the
consolidation guard raises. -/
theorem metric_failure_behavior_witness :
    startsWithL "fallback" (areaStrategy ⟨true, true, CrsKind.geographic, false, 5, 7⟩) = true ∧
    cull_requires_metric ⟨true, true, CrsKind.geographic, false, 5, 7⟩ =
      Except.error "Não dá para podar por escala sem CRS métrico." := by
  refine ⟨by decide, ?_⟩
  exact metric_failure_behavior.1 ⟨true, true, CrsKind.geographic, false, 5, 7⟩
    (Or.inr (by decide))
